import Mathlib

/-!
Shallow embedding of the document-processing core of the repository
(`document_processor.py`, plus the conversation-history bound of `ai_agent.py`).

Text is modelled as `List Char`.  The Python regular expressions used by the
source are fixed, so each one is embedded as a direct recursive function with
the exact semantics of the Python `re` module on these patterns
(`re.IGNORECASE | re.DOTALL`, lazy capture, greedy `\s*` with backtracking,
leftmost match).  Character classes use the ASCII meaning of `\s`, `\d`, `\w`.
-/

namespace DocProc

/-- ASCII whitespace, the characters matched by the regex class `\s` and
stripped by Python `str.strip()` / split by `str.split()` on ASCII text. -/
def isPySpace (c : Char) : Bool :=
  c = ' ' || c = '\t' || c = '\n' || c = '\r' || c = '\x0b' || c = '\x0c'

def isUpperAZ (c : Char) : Bool := 'A' ≤ c && c ≤ 'Z'

def isLowerAZ (c : Char) : Bool := 'a' ≤ c && c ≤ 'z'

def isDigit09 (c : Char) : Bool := '0' ≤ c && c ≤ '9'

/-- The regex class `\w` (ASCII): letters, digits, underscore. -/
def isWordChar (c : Char) : Bool := isUpperAZ c || isLowerAZ c || isDigit09 c || c = '_'

/-- The class `[A-Z\s]` under `re.IGNORECASE`: letters of either case or whitespace. -/
def inHeadingClass (c : Char) : Bool := isUpperAZ c || isLowerAZ c || isPySpace c

/-- Case-folded code point, for `re.IGNORECASE` literal matching (ASCII). -/
def lowerNat (c : Char) : Nat := if isUpperAZ c then c.toNat + 32 else c.toNat

/-- Match a literal keyword case-insensitively at the head of the text,
returning the remaining text on success. -/
def matchKeyword : List Char → List Char → Option (List Char)
  | [], rest => some rest
  | _ :: _, [] => none
  | k :: ks, c :: cs => if lowerNat c = lowerNat k then matchKeyword ks cs else none

/-- `\s*\n` with the greedy backtracking of the Python engine: succeeds iff the
maximal whitespace run at the head contains a newline, and returns the text
after the last newline of that run (the longest successful split). -/
def matchWsNewline : List Char → Option (List Char)
  | [] => none
  | c :: cs =>
    if c = '\n' then
      match matchWsNewline cs with
      | some r => some r
      | none => some cs
    else if isPySpace c then matchWsNewline cs
    else none

/-- `[A-Z\s]{3,}\n` (IGNORECASE) after `n` class characters already consumed:
succeeds iff a newline follows at least 3 class characters.  Note `\n` itself
belongs to the class, so the run may span lines. -/
def headingBody : Nat → List Char → Bool
  | _, [] => false
  | n, c :: cs => (decide (3 ≤ n) && c = '\n') || (inHeadingClass c && headingBody (n + 1) cs)

/-- `\d+\.`: at least one digit, then (after the maximal digit run) a dot. -/
def digitsThenDotAux : List Char → Bool
  | [] => false
  | c :: cs => if isDigit09 c then digitsThenDotAux cs else c = '.'

def digitsThenDot : List Char → Bool
  | [] => false
  | c :: cs => isDigit09 c && digitsThenDotAux cs

/-- The lookahead `(?=\n[A-Z\s]{3,}\n|\n\d+\.|\Z)` of the section patterns,
evaluated at the position whose remaining text is the argument. -/
def sectionStop (l : List Char) : Bool :=
  match l with
  | [] => true
  | '\n' :: rest => headingBody 0 rest || digitsThenDot rest
  | _ => false

/-- The lazy capture `(.*?)` before the lookahead: the shortest prefix whose
following position satisfies `sectionStop`. -/
def captureUntilStop : List Char → List Char
  | [] => []
  | c :: cs => if sectionStop (c :: cs) then [] else c :: captureUntilStop cs

/-- Leftmost match of `KEYWORD\s*\n`, returning the text after the heading
(the start of the capture group).  This models the scan the Python engine
performs for `KEYWORD\s*\n(.*?)(?=…)`: the trailing part of all nine patterns
always succeeds, so the whole pattern matches exactly where the heading does. -/
def findHeadingTail (kw : List Char) : List Char → Option (List Char)
  | [] => none
  | c :: cs =>
    match matchKeyword kw (c :: cs) with
    | some rest =>
      match matchWsNewline rest with
      | some body => some body
      | none => findHeadingTail kw cs
    | none => findHeadingTail kw cs

/-- Remove trailing ASCII whitespace. -/
def stripEnd : List Char → List Char
  | [] => []
  | c :: cs =>
    match stripEnd cs with
    | [] => if isPySpace c then [] else [c]
    | r => c :: r

/-- Python `str.strip()` on ASCII text. -/
def pyStrip (l : List Char) : List Char := stripEnd (l.dropWhile isPySpace)

/-- The nine `(pattern, label)` pairs of `_identify_sections`.  The `Bool`
records whether the pattern's lookahead is the section boundary
`(?=\n[A-Z\s]{3,}\n|\n\d+\.|\Z)` (`true`, first eight patterns) or just
`(?=\Z)` (`false`, the REFERENCES pattern). -/
def sectionPatterns : List (List Char × Bool × String) :=
  [("ABSTRACT".data, true, "Abstract"),
   ("INTRODUCTION".data, true, "Introduction"),
   ("METHODOLOGY".data, true, "Methodology"),
   ("METHODS".data, true, "Methods"),
   ("RESULTS".data, true, "Results"),
   ("DISCUSSION".data, true, "Discussion"),
   ("CONCLUSION".data, true, "Conclusion"),
   ("CONCLUSIONS".data, true, "Conclusions"),
   ("REFERENCES".data, false, "References")]

/-- One pattern of `_identify_sections` applied to a page text:
`re.findall(pattern, text, re.IGNORECASE | re.DOTALL)` keeping the first
match's capture, stripped. -/
def matchPattern (text : List Char) (pat : List Char × Bool × String) :
    Option (String × List Char) :=
  (findHeadingTail pat.1 text).map
    (fun body => (pat.2.2, pyStrip (if pat.2.1 then captureUntilStop body else body)))

/-- `_identify_sections`: the insertion-ordered dict of matched sections,
modelled as an association list in pattern order. -/
def identifySections (text : List Char) : List (String × List Char) :=
  sectionPatterns.filterMap (matchPattern text)

/-- Ordered-dict lookup. -/
def lookupSec (label : String) : List (String × List Char) → Option (List Char)
  | [] => none
  | (k, v) :: rest => if k = label then some v else lookupSec label rest

/-! ### `_extract_references` -/

/-- After `[`: `\d+\]` (the maximal digit run is nonempty and followed by `]`). -/
def bracketNumAux : List Char → Bool
  | [] => false
  | c :: cs => if isDigit09 c then bracketNumAux cs else c = ']'

/-- `\[\d+\]` evaluated after the opening bracket. -/
def bracketNum : List Char → Bool
  | [] => false
  | c :: cs => isDigit09 c && bracketNumAux cs

/-- `\d{4}\]` at the current position. -/
def fourDigitsBracket : List Char → Bool
  | a :: b :: c :: d :: e :: _ =>
    isDigit09 a && isDigit09 b && isDigit09 c && isDigit09 d && e = ']'
  | _ => false

/-- The class `[\w\s,]`. -/
def refClass (c : Char) : Bool := isWordChar c || isPySpace c || c = ','

/-- `[\w\s,]*\d{4}\]` with at least one class character already consumed:
either the four digits and bracket start here, or consume one more class
character (the backtracking search over all splits of `[\w\s,]+`). -/
def authorYearAux : List Char → Bool
  | [] => false
  | c :: cs => fourDigitsBracket (c :: cs) || (refClass c && authorYearAux cs)

/-- `\[[\w\s,]+\d{4}\]` evaluated after the opening bracket. -/
def bracketAuthorYear : List Char → Bool
  | [] => false
  | c :: cs => refClass c && authorYearAux cs

/-- The split lookahead `(?=\[\d+\]|\d+\.|\[[\w\s,]+\d{4}\])` of
`_extract_references`, evaluated right after a newline. -/
def refBoundary (l : List Char) : Bool :=
  match l with
  | '[' :: rest => bracketNum rest || bracketAuthorYear rest
  | _ => digitsThenDot l

/-- `re.split(r'\n(?=\[\d+\]|\d+\.|\[[\w\s,]+\d{4}\])', s)`: cut (consuming
the newline) at every newline whose following text satisfies `refBoundary`. -/
def splitRefs : List Char → List (List Char)
  | [] => [[]]
  | c :: cs =>
    if c = '\n' && refBoundary cs then
      [] :: splitRefs cs
    else
      match splitRefs cs with
      | f :: fs => (c :: f) :: fs
      | [] => [[c]]

/-- `_extract_references`: find the REFERENCES section (capture to end of
text), split it at entry boundaries, strip each fragment and keep those longer
than 20 characters. -/
def extract_references (text : List Char) : List (List Char) :=
  match findHeadingTail "REFERENCES".data text with
  | none => []
  | some refSection =>
    ((splitRefs refSection).map pyStrip).filter (fun r => decide (20 < r.length))

/-! ### `extract_pdf_content`: aggregation over pages, cache, errors -/

/-- Opaque cell grid returned by `table.extract()`. -/
abbrev TableData := List (List String)

/-- One entry of the `tables` list: `{'page': …, 'data': …}`. -/
structure TableEntry where
  page : Nat
  data : TableData
deriving DecidableEq

deriving instance DecidableEq for Except

/-- One page as delivered by the PDF collaborator: its raw text and the
outcome of `table.extract()` for each table `page.find_tables()` found
(`Except.error` models a raising extraction). -/
structure PageData where
  text : List Char
  tables : List (Except String TableData)
deriving DecidableEq

/-- An opened PDF as delivered by the collaborator (`fitz.open`). -/
structure PdfDoc where
  pages : List PageData
  metadata : List (String × String)
deriving DecidableEq

/-- The `content` dict built by `extract_pdf_content`. -/
structure StructuredDocument where
  filename : String
  total_pages : Nat
  text_content : List Char
  structured_content : List (String × List Char)
  tables : List TableEntry
  figures : List TableData
  references : List (List Char)
  metadata : List (String × String)
deriving DecidableEq

/-- The page-boundary marker `f"\n--- Page {n} ---\n"`. -/
def pageMarker (n : Nat) : List Char := ("\n--- Page " ++ toString n ++ " ---\n").data

/-- The running `full_text` accumulator: marker plus page text, per page. -/
def fullTextOf (pages : List PageData) : List Char :=
  (pages.enum.map (fun p => pageMarker (p.1 + 1) ++ p.2.text)).flatten

/-- Merge one `(label, text)` pair into the running `structured_sections`
dict: append to the existing entry, or insert at the end on first occurrence. -/
def mergeSection : List (String × List Char) → String × List Char → List (String × List Char)
  | [], kv => [kv]
  | (k, v) :: rest, kv =>
    if k = kv.1 then (k, v ++ kv.2) :: rest else (k, v) :: mergeSection rest kv

/-- Processing of one page's sections inside the page loop. -/
def pageStep (acc : List (String × List Char)) (text : List Char) : List (String × List Char) :=
  (identifySections text).foldl mergeSection acc

/-- The `structured_sections` accumulation over all pages, in page order. -/
def aggregateSections (pages : List (List Char)) : List (String × List Char) :=
  pages.foldl pageStep []

/-- The tables collected over all pages: each page's successfully extracted
grids tagged with the 1-based page number; failing extractions are skipped. -/
def tablesOf (pages : List PageData) : List TableEntry :=
  (pages.enum.map
    (fun p => p.2.tables.filterMap (fun t => t.toOption.map (TableEntry.mk (p.1 + 1))))).flatten

/-- The `content` dict assembled by the success path of `extract_pdf_content`.
The source keys the result by `Path(pdf_path).name`; paths are modelled by
their file name. -/
def buildContent (filename : String) (doc : PdfDoc) : StructuredDocument :=
  { filename := filename
    total_pages := doc.pages.length
    text_content := fullTextOf doc.pages
    structured_content := aggregateSections (doc.pages.map PageData.text)
    tables := tablesOf doc.pages
    figures := []
    references := extract_references (fullTextOf doc.pages)
    metadata := doc.metadata }

/-- Python dict assignment on the cache: overwrite an existing key in place,
otherwise insert at the end. -/
def insertCache :
    List (String × StructuredDocument) → String → StructuredDocument →
      List (String × StructuredDocument)
  | [], k, v => [(k, v)]
  | (k', v') :: rest, k, v =>
    if k' = k then (k, v) :: rest else (k', v') :: insertCache rest k v

/-- Dict lookup on the cache. -/
def lookupCache : List (String × StructuredDocument) → String → Option StructuredDocument
  | [], _ => none
  | (k', v') :: rest, k => if k' = k then some v' else lookupCache rest k

/-- `extract_pdf_content`: open the file through the collaborator; on failure
re-raise (the `except` clause) leaving the cache untouched; on success build
the content, cache it under the file name and return it. -/
def extract_pdf_content (opener : String → Except String PdfDoc)
    (cache : List (String × StructuredDocument)) (path : String) :
    Except String StructuredDocument × List (String × StructuredDocument) :=
  match opener path with
  | Except.error e => (Except.error e, cache)
  | Except.ok doc =>
    let content := buildContent path doc
    (Except.ok content, insertCache cache path content)

/-- `process_multiple_pdfs`: best-effort loop over the directory's files,
collecting the successes and skipping the failures. -/
def process_multiple_pdfs (opener : String → Except String PdfDoc)
    (cache : List (String × StructuredDocument)) (files : List String) :
    List (String × StructuredDocument) × List (String × StructuredDocument) :=
  match files with
  | [] => ([], cache)
  | f :: fs =>
    match extract_pdf_content opener cache f with
    | (Except.ok content, cache') =>
      let r := process_multiple_pdfs opener cache' fs
      ((f, content) :: r.1, r.2)
    | (Except.error _, cache') => process_multiple_pdfs opener cache' fs

/-! ### `get_document_summary` -/

/-- Python `str.split()` with no argument: maximal runs of non-whitespace. -/
def splitWsAux : List Char → List Char → List (List Char)
  | [], acc => if acc.isEmpty then [] else [acc.reverse]
  | c :: cs, acc =>
    if isPySpace c then
      if acc.isEmpty then splitWsAux cs [] else acc.reverse :: splitWsAux cs []
    else splitWsAux cs (c :: acc)

def pySplitWs (l : List Char) : List (List Char) := splitWsAux l []

/-- The summary dict returned by `get_document_summary` for a cached file. -/
structure DocumentSummary where
  filename : String
  pages : Nat
  sections : List String
  tables_count : Nat
  references_count : Nat
  word_count : Nat
deriving DecidableEq

/-- `get_document_summary`: empty dict (`none`) for an unknown file name,
otherwise the projection of the cached record. -/
def get_document_summary (cache : List (String × StructuredDocument)) (filename : String) :
    Option DocumentSummary :=
  match lookupCache cache filename with
  | none => none
  | some doc =>
    some { filename := doc.filename
           pages := doc.total_pages
           sections := doc.structured_content.map Prod.fst
           tables_count := doc.tables.length
           references_count := doc.references.length
           word_count := (pySplitWs doc.text_content).length }

/-! ### `_add_to_history` (`ai_agent.py`) -/

/-- One conversation record `{'query': …, 'response': …}`. -/
structure ConversationEntry where
  query : String
  response : String
deriving DecidableEq

/-- `_add_to_history`: append the new record, then keep only the last 10
entries when the bound is exceeded. -/
def add_to_history (hist : List ConversationEntry) (q r : String) : List ConversationEntry :=
  let h := hist ++ [{ query := q, response := r }]
  if 10 < h.length then h.drop (h.length - 10) else h

/-! ### Claim-side helper notions -/

/-- Index of the first page on which a label is matched. -/
def firstMatchedPage (label : String) : List (List Char) → Option Nat
  | [] => none
  | t :: ts =>
    if (lookupSec label (identifySections t)).isSome then some 0
    else (firstMatchedPage label ts).map (· + 1)

/-- The per-page captures of one label, in page order. -/
def sectionOccurrences (label : String) (pages : List (List Char)) : List (List Char) :=
  pages.filterMap (fun t => lookupSec label (identifySections t))

/-- Position of the first occurrence of a string in a list (list length when
absent): the insertion-order index of a key. -/
def posOf (a : String) : List String → Nat
  | [] => 0
  | b :: t => if b = a then 0 else posOf a t + 1

/-- Sample cached record used to exercise the summary projection. -/
def sampleDoc : StructuredDocument :=
  { filename := "a.pdf"
    total_pages := 2
    text_content := "  hello  world x ".data
    structured_content := [("Abstract", "hi".data)]
    tables := []
    figures := []
    references := ["[1] something long".data]
    metadata := [] }

end DocProc

namespace DocProc

/-! ### Association-list lemmas for the section accumulation -/

lemma lookupSec_merge_self (label : String) (v : List Char) (m : List (String × List Char)) :
    lookupSec label (mergeSection m (label, v)) = some ((lookupSec label m).getD [] ++ v) := by
  induction m with
  | nil => simp [mergeSection, lookupSec]
  | cons hd rest ih =>
    obtain ⟨k, w⟩ := hd
    by_cases hk : k = label
    · subst hk; simp [mergeSection, lookupSec]
    · simp [mergeSection, lookupSec, hk, ih]

lemma lookupSec_merge_other (label : String) (kv : String × List Char)
    (m : List (String × List Char)) (h : kv.1 ≠ label) :
    lookupSec label (mergeSection m kv) = lookupSec label m := by
  induction m with
  | nil => simp [mergeSection, lookupSec, h]
  | cons hd rest ih =>
    obtain ⟨k, w⟩ := hd
    by_cases hk : k = kv.1
    · subst hk; simp [mergeSection, lookupSec, h, ih]
    · by_cases hl : k = label
      · subst hl; simp [mergeSection, lookupSec, hk]
      · simp [mergeSection, lookupSec, hk, hl, ih]

lemma lookupSec_eq_none (label : String) (m : List (String × List Char)) :
    lookupSec label m = none ↔ label ∉ m.map Prod.fst := by
  induction m with
  | nil => simp [lookupSec]
  | cons hd rest ih =>
    obtain ⟨k, w⟩ := hd
    by_cases hk : k = label
    · subst hk; simp [lookupSec]
    · simp [lookupSec, hk, ih, Ne.symm hk]

lemma lookupSec_foldl_merge (label : String) (secs : List (String × List Char)) :
    ∀ m, (secs.map Prod.fst).Nodup →
      lookupSec label (secs.foldl mergeSection m) =
        match lookupSec label secs with
        | none => lookupSec label m
        | some v => some ((lookupSec label m).getD [] ++ v) := by
  induction secs with
  | nil => intro m _; simp [lookupSec]
  | cons kv rest ih =>
    intro m hnodup
    obtain ⟨k, v⟩ := kv
    simp only [List.map_cons, List.nodup_cons] at hnodup
    obtain ⟨hk_notin, hrest⟩ := hnodup
    rw [List.foldl_cons, ih _ hrest]
    by_cases hk : k = label
    · subst hk
      rw [(lookupSec_eq_none k rest).mpr hk_notin]
      simp [lookupSec, lookupSec_merge_self]
    · rw [lookupSec_merge_other label (k, v) m hk]
      simp [lookupSec, hk]

lemma matchPattern_label (text : List Char) (pat : List Char × Bool × String)
    (s : String × List Char) (h : matchPattern text pat = some s) : s.1 = pat.2.2 := by
  unfold matchPattern at h
  cases hf : findHeadingTail pat.1 text with
  | none => rw [hf] at h; simp at h
  | some body =>
    rw [hf] at h
    simp only [Option.map_some'] at h
    cases h
    rfl

lemma keys_filterMap_sublist (text : List Char) (pats : List (List Char × Bool × String)) :
    ((pats.filterMap (matchPattern text)).map Prod.fst).Sublist
      (pats.map (fun p => p.2.2)) := by
  induction pats with
  | nil => simp
  | cons p ps ih =>
    cases h : matchPattern text p with
    | none =>
      rw [List.filterMap_cons_none h, List.map_cons]
      exact ih.cons _
    | some s =>
      rw [List.filterMap_cons_some h, List.map_cons, List.map_cons,
        matchPattern_label text p s h]
      exact ih.cons₂ _

lemma keys_identify_nodup (text : List Char) :
    ((identifySections text).map Prod.fst).Nodup :=
  List.Sublist.nodup (keys_filterMap_sublist text sectionPatterns) (by decide)

lemma lookupSec_pageStep (label : String) (acc : List (String × List Char)) (t : List Char) :
    lookupSec label (pageStep acc t) =
      match lookupSec label (identifySections t) with
      | none => lookupSec label acc
      | some v => some ((lookupSec label acc).getD [] ++ v) :=
  lookupSec_foldl_merge label (identifySections t) acc (keys_identify_nodup t)

lemma lookupSec_foldl_pages (label : String) (pages : List (List Char)) :
    ∀ acc, lookupSec label (pages.foldl pageStep acc) =
      (sectionOccurrences label pages).foldl
        (fun prev v => some (prev.getD [] ++ v)) (lookupSec label acc) := by
  induction pages with
  | nil => intro acc; simp [sectionOccurrences]
  | cons t ts ih =>
    intro acc
    rw [List.foldl_cons, ih (pageStep acc t)]
    unfold sectionOccurrences
    rw [List.filterMap_cons]
    cases h : lookupSec label (identifySections t) with
    | none => rw [lookupSec_pageStep, h]
    | some v => rw [List.foldl_cons, lookupSec_pageStep, h]

lemma foldl_combine_some (vals : List (List Char)) :
    ∀ w, vals.foldl (fun prev v => some (prev.getD [] ++ v)) (some w) =
      some (w ++ vals.flatten) := by
  induction vals with
  | nil => intro w; simp
  | cons v vs ih =>
    intro w
    rw [List.foldl_cons]
    simp only [Option.getD_some]
    rw [ih (w ++ v)]
    simp [List.append_assoc]

lemma foldl_combine_none (vals : List (List Char)) (h : vals ≠ []) :
    vals.foldl (fun prev v => some (prev.getD [] ++ v)) none = some vals.flatten := by
  cases vals with
  | nil => exact absurd rfl h
  | cons v vs =>
    rw [List.foldl_cons]
    simp only [Option.getD_none, List.nil_append]
    rw [foldl_combine_some vs v]
    simp

lemma lookupSec_aggregate (label : String) (pages : List (List Char)) :
    lookupSec label (aggregateSections pages) =
      if sectionOccurrences label pages = [] then none
      else some (sectionOccurrences label pages).flatten := by
  rw [aggregateSections, lookupSec_foldl_pages]
  by_cases h : sectionOccurrences label pages = []
  · rw [if_pos h, h]; rfl
  · rw [if_neg h]
    have hl : lookupSec label ([] : List (String × List Char)) = none := rfl
    rw [hl, foldl_combine_none _ h]

lemma mem_keys_aggregate (label : String) (pages : List (List Char)) :
    label ∈ (aggregateSections pages).map Prod.fst ↔
      sectionOccurrences label pages ≠ [] := by
  constructor
  · intro hm hnil
    have := lookupSec_aggregate label pages
    rw [if_pos hnil, lookupSec_eq_none] at this
    exact this hm
  · intro hne
    by_contra hm
    have := lookupSec_aggregate label pages
    rw [if_neg hne, (lookupSec_eq_none label _).mpr hm] at this
    exact Option.noConfusion this

end DocProc

namespace DocProc

/-! ### Insertion order of section keys -/

lemma keys_merge_extend (m : List (String × List Char)) (kv : String × List Char) :
    ∃ t, (mergeSection m kv).map Prod.fst = m.map Prod.fst ++ t := by
  induction m with
  | nil => exact ⟨[kv.1], by simp [mergeSection]⟩
  | cons hd rest ih =>
    obtain ⟨k, w⟩ := hd
    by_cases hk : k = kv.1
    · exact ⟨[], by simp [mergeSection, hk]⟩
    · obtain ⟨t, ht⟩ := ih
      exact ⟨t, by simp [mergeSection, hk, ht]⟩

lemma keys_foldl_merge_extend (secs : List (String × List Char)) :
    ∀ m, ∃ t, ((secs.foldl mergeSection m).map Prod.fst) = m.map Prod.fst ++ t := by
  induction secs with
  | nil => exact fun m => ⟨[], by simp⟩
  | cons kv rest ih =>
    intro m
    obtain ⟨t1, h1⟩ := keys_merge_extend m kv
    obtain ⟨t2, h2⟩ := ih (mergeSection m kv)
    exact ⟨t1 ++ t2, by rw [List.foldl_cons, h2, h1, List.append_assoc]⟩

lemma keys_foldl_pages_extend (pages : List (List Char)) :
    ∀ acc, ∃ t, ((pages.foldl pageStep acc).map Prod.fst) = acc.map Prod.fst ++ t := by
  induction pages with
  | nil => exact fun acc => ⟨[], by simp⟩
  | cons p ps ih =>
    intro acc
    obtain ⟨t1, h1⟩ := keys_foldl_merge_extend (identifySections p) acc
    obtain ⟨t2, h2⟩ := ih (pageStep acc p)
    exact ⟨t1 ++ t2, by rw [List.foldl_cons, h2, pageStep, h1, List.append_assoc]⟩

lemma posOf_append_left (a : String) (l1 l2 : List String) (h : a ∈ l1) :
    posOf a (l1 ++ l2) = posOf a l1 := by
  induction l1 with
  | nil => simp at h
  | cons b t ih =>
    by_cases hb : b = a
    · simp [posOf, hb]
    · have ht : a ∈ t := by
        rcases List.mem_cons.mp h with h' | h'
        · exact absurd h'.symm hb
        · exact h'
      simp [posOf, hb, ih ht]

lemma posOf_lt_length (a : String) (l : List String) (h : a ∈ l) : posOf a l < l.length := by
  induction l with
  | nil => simp at h
  | cons b t ih =>
    by_cases hb : b = a
    · simp [posOf, hb]
    · have ht : a ∈ t := by
        rcases List.mem_cons.mp h with h' | h'
        · exact absurd h'.symm hb
        · exact h'
      have hlt := ih ht
      simp only [posOf, hb, if_false, List.length_cons]
      omega

lemma posOf_append_right (a : String) (l1 l2 : List String) (h : a ∉ l1) :
    posOf a (l1 ++ l2) = l1.length + posOf a l2 := by
  induction l1 with
  | nil => simp
  | cons b t ih =>
    have hb : b ≠ a := fun hh => h (hh ▸ List.mem_cons_self b t)
    have ht : a ∉ t := fun hh => h (List.mem_cons_of_mem b hh)
    have hrec := ih ht
    simp only [List.cons_append, posOf, hb, if_false, List.length_cons, List.append_eq] at hrec ⊢
    omega

lemma firstMatchedPage_split (label : String) (pages : List (List Char)) :
    ∀ i, firstMatchedPage label pages = some i →
      ∃ pre page post, pages = pre ++ page :: post ∧ pre.length = i ∧
        (∀ t ∈ pre, lookupSec label (identifySections t) = none) ∧
        (lookupSec label (identifySections page)).isSome := by
  induction pages with
  | nil => intro i h; simp [firstMatchedPage] at h
  | cons t ts ih =>
    intro i h
    unfold firstMatchedPage at h
    by_cases ht : (lookupSec label (identifySections t)).isSome
    · rw [if_pos ht] at h
      obtain rfl : (0 : Nat) = i := Option.some.inj h
      exact ⟨[], t, ts, by simp, rfl, by simp, ht⟩
    · rw [if_neg ht] at h
      cases hj : firstMatchedPage label ts with
      | none => rw [hj] at h; simp at h
      | some j =>
        rw [hj] at h
        simp only [Option.map_some'] at h
        obtain rfl : j + 1 = i := Option.some.inj h
        obtain ⟨pre, page, post, h1, h2, h3, h4⟩ := ih j hj
        refine ⟨t :: pre, page, post, by simp [h1], by simp [h2], ?_, h4⟩
        intro u hu
        rcases List.mem_cons.mp hu with rfl | hu'
        · exact Option.not_isSome_iff_eq_none.mp ht
        · exact h3 u hu'

/-! ### Idempotence of stripping -/

lemma dropWhile_isPySpace_idem (l : List Char) :
    (l.dropWhile isPySpace).dropWhile isPySpace = l.dropWhile isPySpace := by
  induction l with
  | nil => rfl
  | cons c cs ih =>
    by_cases hc : isPySpace c = true
    · simp [List.dropWhile_cons, hc, ih]
    · simp [List.dropWhile_cons, hc]

lemma dropWhile_stripEnd (m : List Char) (h : m.dropWhile isPySpace = m) :
    (stripEnd m).dropWhile isPySpace = stripEnd m := by
  cases m with
  | nil => rfl
  | cons c cs =>
    have hc : isPySpace c = false := by
      by_contra hcc
      have hcc' : isPySpace c = true := by
        cases hb : isPySpace c
        · exact absurd hb hcc
        · rfl
      rw [List.dropWhile_cons, hcc'] at h
      have hlen := (List.dropWhile_sublist (l := cs) isPySpace).length_le
      have : (c :: cs).length ≤ cs.length := h ▸ hlen
      simp at this
    show (stripEnd (c :: cs)).dropWhile isPySpace = stripEnd (c :: cs)
    rw [stripEnd]
    cases hse : stripEnd cs with
    | nil => simp [hc, List.dropWhile_cons]
    | cons d ds => simp [List.dropWhile_cons, hc]

lemma stripEnd_idem (l : List Char) : stripEnd (stripEnd l) = stripEnd l := by
  induction l with
  | nil => rfl
  | cons c cs ih =>
    rw [stripEnd]
    cases hse : stripEnd cs with
    | nil =>
      by_cases hc : isPySpace c = true
      · simp only [hc, if_true]
        rfl
      · have hc' : isPySpace c = false := by
          cases hb : isPySpace c
          · rfl
          · exact absurd hb hc
        simp only [hc', if_false]
        show stripEnd [c] = [c]
        simp [stripEnd, hc']
    | cons d ds =>
      rw [hse] at ih
      rw [stripEnd, ih]

lemma pyStrip_idem (l : List Char) : pyStrip (pyStrip l) = pyStrip l := by
  unfold pyStrip
  rw [dropWhile_stripEnd (l.dropWhile isPySpace) (dropWhile_isPySpace_idem l),
    stripEnd_idem]

/-! ### Matches are located inside the text -/

lemma matchKeyword_drops (kw : List Char) :
    ∀ l rest, matchKeyword kw l = some rest → ∃ p, p ++ rest = l := by
  induction kw with
  | nil =>
    intro l rest h
    simp only [matchKeyword, Option.some.injEq] at h
    exact ⟨[], by simp [h]⟩
  | cons k ks ih =>
    intro l rest h
    cases l with
    | nil => simp [matchKeyword] at h
    | cons c cs =>
      rw [matchKeyword] at h
      split at h
      · obtain ⟨p, hp⟩ := ih cs rest h
        exact ⟨c :: p, by simp [hp]⟩
      · exact absurd h (by simp)

lemma matchWsNewline_drops :
    ∀ l body, matchWsNewline l = some body → ∃ p, p ++ body = l := by
  intro l
  induction l with
  | nil => intro body h; simp [matchWsNewline] at h
  | cons c cs ih =>
    intro body h
    rw [matchWsNewline] at h
    split at h
    · cases hw : matchWsNewline cs with
      | some r =>
        rw [hw] at h
        have hrb : r = body := by
          have h' : some r = some body := h
          exact Option.some.inj h'
        obtain ⟨p, hp⟩ := ih r hw
        exact ⟨c :: p, by rw [← hrb]; simp [hp]⟩
      | none =>
        rw [hw] at h
        have hcb : cs = body := by
          have h' : some cs = some body := h
          exact Option.some.inj h'
        exact ⟨[c], by rw [← hcb]; simp⟩
    · split at h
      · obtain ⟨p, hp⟩ := ih body h
        exact ⟨c :: p, by simp [hp]⟩
      · exact absurd h (by simp)

/-! ### Lookup in the output of `_identify_sections` -/

lemma lookupSec_filterMap (text : List Char) :
    ∀ pats : List (List Char × Bool × String),
      (pats.map (fun p => p.2.2)).Nodup → ∀ pat ∈ pats,
        lookupSec pat.2.2 (pats.filterMap (matchPattern text)) =
          (matchPattern text pat).map Prod.snd := by
  intro pats
  induction pats with
  | nil => intro _ pat hpat; simp at hpat
  | cons p ps ih =>
    intro hnodup pat hpat
    simp only [List.map_cons, List.nodup_cons] at hnodup
    obtain ⟨hp_notin, hps⟩ := hnodup
    rcases List.mem_cons.mp hpat with rfl | hmem
    · cases h : matchPattern text pat with
      | none =>
        rw [List.filterMap_cons_none h]
        apply (lookupSec_eq_none _ _).mpr
        intro hc
        exact hp_notin (List.Sublist.mem hc (keys_filterMap_sublist text ps))
      | some s =>
        rw [List.filterMap_cons_some h]
        simp [lookupSec, matchPattern_label text pat s h]
    · have hne : p.2.2 ≠ pat.2.2 := by
        intro hh
        exact hp_notin (hh ▸ List.mem_map_of_mem (fun q => q.2.2) hmem)
      cases h : matchPattern text p with
      | none => rw [List.filterMap_cons_none h]; exact ih hps pat hmem
      | some s =>
        rw [List.filterMap_cons_some h]
        rw [lookupSec, if_neg]
        · exact ih hps pat hmem
        · rw [matchPattern_label text p s h]
          exact hne

lemma lookupSec_identify (text : List Char) (pat : List Char × Bool × String)
    (hmem : pat ∈ sectionPatterns) :
    lookupSec pat.2.2 (identifySections text) = (matchPattern text pat).map Prod.snd :=
  lookupSec_filterMap text sectionPatterns (by decide) pat hmem

end DocProc

namespace DocProc

/-- Claim C1 (counterexample): on Scenario A's page text the extractor does
not return the one-entry mapping `{Abstract ↦ "We study X."}`. -/
theorem scenarioA_not_single_section :
    identifySections "ABSTRACT\nWe study X.\nINTRODUCTION\nX matters because Y.".data ≠
      [("Abstract", "We study X.".data)] := by
  decide

/-- Claim C1 (amended): on Scenario A's page text the extractor maps
`Abstract` to the trimmed text between the ABSTRACT heading and the
INTRODUCTION heading line, and additionally maps `Introduction` to the
trimmed text after the INTRODUCTION heading. -/
theorem scenarioA_sections :
    identifySections "ABSTRACT\nWe study X.\nINTRODUCTION\nX matters because Y.".data =
      [("Abstract", "We study X.".data), ("Introduction", "X matters because Y.".data)] := by
  decide

/-- Claim C2 (counterexample): the REFERENCES pattern does not stop at a
numbered-list marker; its capture runs to end of text, unlike the boundary
capture the claim describes for all nine patterns. -/
theorem references_capture_ignores_boundary :
    lookupSec "References" (identifySections "REFERENCES\nfoo\n1. extra".data) =
      some "foo\n1. extra".data ∧
    pyStrip (captureUntilStop "foo\n1. extra".data) = "foo".data ∧
    ("foo\n1. extra".data : List Char) ≠ "foo".data := by
  exact ⟨by decide, by decide, by decide⟩

/-- Claim C2 (amended): for the eight patterns other than REFERENCES the
capture extends from the heading's line break exactly up to the first
position satisfying the stop lookahead (a newline followed by at least three
letters-or-whitespace characters and a newline, a newline followed by digits
and a dot, or end of text) — whichever comes first; and every heading match
is located inside the scanned page text. -/
theorem capture_stops_at_first_boundary :
    (∀ body : List Char,
        captureUntilStop body ++ body.drop (captureUntilStop body).length = body ∧
        sectionStop (body.drop (captureUntilStop body).length) = true ∧
        ∀ n < (captureUntilStop body).length, sectionStop (body.drop n) = false) ∧
    (∀ kw text body, findHeadingTail kw text = some body → ∃ pre, pre ++ body = text) := by
  constructor
  · intro body
    induction body with
    | nil => exact ⟨rfl, rfl, fun n hn => by simp [captureUntilStop] at hn⟩
    | cons c cs ih =>
      by_cases h : sectionStop (c :: cs) = true
      · refine ⟨?_, ?_, ?_⟩ <;> simp only [captureUntilStop, h, if_true]
        · simp
        · simpa using h
        · intro n hn; simp at hn
      · have h' : sectionStop (c :: cs) = false := by
          cases hb : sectionStop (c :: cs)
          · rfl
          · exact absurd hb h
        obtain ⟨ih1, ih2, ih3⟩ := ih
        refine ⟨?_, ?_, ?_⟩ <;>
          simp only [captureUntilStop, h', Bool.false_eq_true, if_false, List.length_cons,
            List.drop_succ_cons]
        · simp [ih1]
        · exact ih2
        · intro n hn
          cases n with
          | zero => simpa using h'
          | succ m =>
            rw [List.drop_succ_cons]
            exact ih3 m (Nat.lt_of_succ_lt_succ hn)
  · intro kw text
    induction text with
    | nil => intro body h; simp [findHeadingTail] at h
    | cons c cs ih =>
      intro body h
      rw [findHeadingTail] at h
      cases hk : matchKeyword kw (c :: cs) with
      | none =>
        rw [hk] at h
        obtain ⟨p, hp⟩ := ih body h
        exact ⟨c :: p, by simp [hp]⟩
      | some rest =>
        rw [hk] at h
        have h2 : (match matchWsNewline rest with
            | some b => some b
            | none => findHeadingTail kw cs) = some body := h
        cases hw : matchWsNewline rest with
        | none =>
          rw [hw] at h2
          have h3 : findHeadingTail kw cs = some body := h2
          obtain ⟨p, hp⟩ := ih body h3
          exact ⟨c :: p, by simp [hp]⟩
        | some b =>
          rw [hw] at h2
          have hb : b = body := by
            have h' : some b = some body := h2
            exact Option.some.inj h'
          obtain ⟨p1, hp1⟩ := matchKeyword_drops kw (c :: cs) rest hk
          obtain ⟨p2, hp2⟩ := matchWsNewline_drops rest b hw
          refine ⟨p1 ++ p2, ?_⟩
          rw [← hb, List.append_assoc, hp2, hp1]

/-- Witness for C2 at concrete inputs. -/
theorem capture_stops_at_first_boundary_spot :
    sectionStop ("foo\n1. extra".data.drop 2) = false ∧
    ∃ pre, pre ++ "x".data = "REFERENCES\nx".data := by
  constructor
  · exact (capture_stops_at_first_boundary.1 "foo\n1. extra".data).2.2 2 (by decide)
  · exact capture_stops_at_first_boundary.2 "REFERENCES".data "REFERENCES\nx".data "x".data
      (by decide)

/-- Claim C3: a label first matched on an earlier page precedes, in the
aggregated mapping's insertion order, a label first matched on a later page. -/
theorem first_encounter_order (pages : List (List Char)) (A B : String) (iA iB : Nat)
    (hA : firstMatchedPage A pages = some iA) (hB : firstMatchedPage B pages = some iB)
    (hAB : iA < iB) :
    posOf A ((aggregateSections pages).map Prod.fst) <
      posOf B ((aggregateSections pages).map Prod.fst) := by
  obtain ⟨preB, pB, postB, hsplit, hlen, hnone, hpB⟩ := firstMatchedPage_split B pages iB hB
  obtain ⟨preA, pA, postA, hsplitA, hlenA, _, hpA⟩ := firstMatchedPage_split A pages iA hA
  have hgetA : pages[iA]? = some pA := by
    rw [hsplitA, List.getElem?_append_right (by omega)]
    simp [hlenA]
  have hApre : pA ∈ preB := by
    have hsame : pages[iA]? = preB[iA]? := by
      rw [hsplit, List.getElem?_append, if_pos]
      rw [hlen]
      exact hAB
    exact List.getElem?_mem (by rw [← hsame]; exact hgetA)
  have hAmem : A ∈ ((aggregateSections preB).map Prod.fst) := by
    apply (mem_keys_aggregate A preB).mpr
    intro hnil
    have hnoneA := List.filterMap_eq_nil_iff.mp hnil pA hApre
    rw [hnoneA] at hpA
    simp at hpA
  have hBnot : B ∉ ((aggregateSections preB).map Prod.fst) := by
    intro hmem
    exact (mem_keys_aggregate B preB).mp hmem
      (List.filterMap_eq_nil_iff.mpr fun t ht => hnone t ht)
  have hfold : aggregateSections pages = (pB :: postB).foldl pageStep (aggregateSections preB) := by
    rw [hsplit, aggregateSections, aggregateSections, List.foldl_append]
  obtain ⟨tail, htail⟩ := keys_foldl_pages_extend (pB :: postB) (aggregateSections preB)
  have hkeys : (aggregateSections pages).map Prod.fst =
      (aggregateSections preB).map Prod.fst ++ tail := by rw [hfold]; exact htail
  rw [hkeys, posOf_append_left A _ tail hAmem, posOf_append_right B _ tail hBnot]
  have hlt := posOf_lt_length A _ hAmem
  omega

/-- Witness for C3 on a two-page document where the page order disagrees with
the pattern order. -/
theorem first_encounter_order_spot :
    posOf "Discussion"
        ((aggregateSections
            ["DISCUSSION\nfoo bar baz".data, "ABSTRACT\nqux quux".data]).map Prod.fst) <
      posOf "Abstract"
        ((aggregateSections
            ["DISCUSSION\nfoo bar baz".data, "ABSTRACT\nqux quux".data]).map Prod.fst) :=
  first_encounter_order _ "Discussion" "Abstract" 0 1 (by decide) (by decide) (by decide)

/-- Claim C4: every returned reference has trimmed length above 20; every
split fragment whose trimmed length exceeds 20 is kept; and the Scenario C
block yields no references. -/
theorem references_min_length :
    (∀ text r, r ∈ extract_references text → 20 < (pyStrip r).length) ∧
    (∀ text refSection frag,
        findHeadingTail "REFERENCES".data text = some refSection →
        frag ∈ splitRefs refSection → 20 < (pyStrip frag).length →
        pyStrip frag ∈ extract_references text) ∧
    extract_references "REFERENCES\nSee appendix.".data = [] := by
  refine ⟨?_, ?_, by decide⟩
  · intro text r hr
    unfold extract_references at hr
    cases hf : findHeadingTail "REFERENCES".data text with
    | none => rw [hf] at hr; simp at hr
    | some sec =>
      rw [hf] at hr
      obtain ⟨hmem, hlen⟩ := List.mem_filter.mp hr
      obtain ⟨frag, hfrag, rfl⟩ := List.mem_map.mp hmem
      rw [pyStrip_idem]
      exact of_decide_eq_true hlen
  · intro text sec frag hf hfrag hlen
    unfold extract_references
    rw [hf]
    exact List.mem_filter.mpr ⟨List.mem_map_of_mem pyStrip hfrag, decide_eq_true hlen⟩

/-- Witness for C4 at concrete inputs. -/
theorem references_min_length_spot :
    20 < (pyStrip "[1] This reference entry is long enough.".data).length ∧
    pyStrip "first fragment with no markers quite long".data ∈
      extract_references "REFERENCES\nfirst fragment with no markers quite long".data := by
  constructor
  · exact references_min_length.1
      "REFERENCES\n[1] This reference entry is long enough.".data
      "[1] This reference entry is long enough.".data (by decide)
  · exact references_min_length.2.1
      "REFERENCES\nfirst fragment with no markers quite long".data
      "first fragment with no markers quite long".data
      "first fragment with no markers quite long".data (by decide) (by decide) (by decide)

/-- Claim C5: when a label is matched exactly on two consecutive pages, the
aggregated value is the concatenation of the two pages' trimmed captures in
page order, with no separator. -/
theorem consecutive_pages_concat (pre post : List (List Char)) (p q : List Char)
    (label : String) (v1 v2 : List Char)
    (hpre : ∀ t ∈ pre, lookupSec label (identifySections t) = none)
    (hpost : ∀ t ∈ post, lookupSec label (identifySections t) = none)
    (hp : lookupSec label (identifySections p) = some v1)
    (hq : lookupSec label (identifySections q) = some v2) :
    lookupSec label (aggregateSections (pre ++ p :: q :: post)) = some (v1 ++ v2) := by
  rw [lookupSec_aggregate]
  have hocc : sectionOccurrences label (pre ++ p :: q :: post) = [v1, v2] := by
    unfold sectionOccurrences
    rw [List.filterMap_append, List.filterMap_eq_nil_iff.mpr hpre, List.nil_append]
    simp [List.filterMap_cons, hp, hq, List.filterMap_eq_nil_iff.mpr hpost]
  rw [hocc]
  simp

/-- Witness for C5 on a three-page document. -/
theorem consecutive_pages_concat_spot :
    lookupSec "Results"
        (aggregateSections
          ["ABSTRACT\nsomething here".data, "RESULTS\nalpha beta.".data,
            "RESULTS\nmore results".data]) =
      some ("alpha beta.".data ++ "more results".data) :=
  consecutive_pages_concat ["ABSTRACT\nsomething here".data] []
    "RESULTS\nalpha beta.".data "RESULTS\nmore results".data "Results"
    "alpha beta.".data "more results".data
    (by decide) (by decide) (by decide) (by decide)

/-- Claim C6: when the PDF-opening collaborator fails, `extract_pdf_content`
propagates the failure and leaves the document cache unchanged. -/
theorem extract_error_propagates (opener : String → Except String PdfDoc)
    (cache : List (String × StructuredDocument)) (path : String) (e : String)
    (h : opener path = Except.error e) :
    extract_pdf_content opener cache path = (Except.error e, cache) := by
  unfold extract_pdf_content
  rw [h]

/-- Witness for C6 with a failing opener. -/
theorem extract_error_propagates_spot :
    extract_pdf_content (fun _ => Except.error "unreadable") [] "broken.pdf" =
      (Except.error "unreadable", []) :=
  extract_error_propagates (fun _ => Except.error "unreadable") [] "broken.pdf" "unreadable" rfl

/-- Claim C7: batch processing returns exactly the successfully processed
files (failures are skipped, later files still processed) and an empty file
list yields an empty mapping. -/
theorem process_batch_best_effort (opener : String → Except String PdfDoc)
    (cache : List (String × StructuredDocument)) (files : List String) :
    (process_multiple_pdfs opener cache files).1 =
      files.filterMap (fun f =>
        match opener f with
        | Except.ok d => some (f, buildContent f d)
        | Except.error _ => none) ∧
    process_multiple_pdfs opener cache [] = ([], cache) := by
  refine ⟨?_, rfl⟩
  induction files generalizing cache with
  | nil => rfl
  | cons f fs ih =>
    cases h : opener f with
    | error e =>
      simp only [process_multiple_pdfs, extract_pdf_content, h, List.filterMap_cons]
      exact ih cache
    | ok d =>
      simp only [process_multiple_pdfs, extract_pdf_content, h, List.filterMap_cons]
      simp [ih]

/-- Claim C8: the summary is the empty mapping for an uncached file name, and
otherwise the exact projection of the cached record, with the word count
given by whitespace tokenization of the cached full text. -/
theorem summary_projection (cache : List (String × StructuredDocument)) (filename : String) :
    (lookupCache cache filename = none → get_document_summary cache filename = none) ∧
    (∀ doc, lookupCache cache filename = some doc →
      get_document_summary cache filename =
        some ({ filename := doc.filename
                pages := doc.total_pages
                sections := doc.structured_content.map Prod.fst
                tables_count := doc.tables.length
                references_count := doc.references.length
                word_count := (pySplitWs doc.text_content).length } : DocumentSummary)) := by
  constructor
  · intro h
    unfold get_document_summary
    rw [h]
  · intro doc h
    unfold get_document_summary
    rw [h]

/-- Witness for C8 on an empty cache and on a concrete cached record. -/
theorem summary_projection_spot :
    get_document_summary [] "missing.pdf" = none ∧
    get_document_summary [("a.pdf", sampleDoc)] "a.pdf" =
      some ({ filename := "a.pdf", pages := 2, sections := ["Abstract"],
              tables_count := 0, references_count := 1, word_count := 3 } :
        DocumentSummary) := by
  constructor
  · exact (summary_projection [] "missing.pdf").1 rfl
  · exact ((summary_projection [("a.pdf", sampleDoc)] "a.pdf").2 sampleDoc rfl).trans (by decide)

/-- Claim C9 (counterexample): a page of the claimed shape (CONCLUSIONS, a
newline, then a body) can still produce the `Conclusion` label, because the
body itself may contain a CONCLUSION heading. -/
theorem conclusions_body_can_match_conclusion :
    "CONCLUSIONS\nCONCLUSION\nx".data = "CONCLUSIONS\n".data ++ "CONCLUSION\nx".data ∧
    lookupSec "Conclusion" (identifySections "CONCLUSIONS\nCONCLUSION\nx".data) =
      some "x".data := by
  exact ⟨by decide, by decide⟩

/-- Claim C9 (amended): a page starting with a CONCLUSIONS heading always
yields the `Conclusions` label, and yields the `Conclusion` label exactly
when the CONCLUSION pattern matches inside the body — the shorter keyword
never matches as a prefix of the longer heading line. -/
theorem conclusions_prefix_safe (body : List Char) :
    (lookupSec "Conclusions" (identifySections ("CONCLUSIONS\n".data ++ body))).isSome = true ∧
    lookupSec "Conclusion" (identifySections ("CONCLUSIONS\n".data ++ body)) =
      (findHeadingTail "CONCLUSION".data body).map (fun b => pyStrip (captureUntilStop b)) := by
  constructor
  · have h : lookupSec "Conclusions" (identifySections ("CONCLUSIONS\n".data ++ body)) =
        (matchPattern ("CONCLUSIONS\n".data ++ body)
          ("CONCLUSIONS".data, true, "Conclusions")).map Prod.snd :=
      lookupSec_identify ("CONCLUSIONS\n".data ++ body)
        ("CONCLUSIONS".data, true, "Conclusions") (by decide)
    rw [h]
    have h1 : findHeadingTail "CONCLUSIONS".data ("CONCLUSIONS\n".data ++ body) =
        match matchWsNewline ('\n' :: body) with
        | some b => some b
        | none => findHeadingTail "CONCLUSIONS".data ("ONCLUSIONS\n".data ++ body) := rfl
    have h2 : matchWsNewline ('\n' :: body) =
        match matchWsNewline body with
        | some r => some r
        | none => some body := rfl
    have hred : matchPattern ("CONCLUSIONS\n".data ++ body)
        ("CONCLUSIONS".data, true, "Conclusions") =
        (findHeadingTail "CONCLUSIONS".data ("CONCLUSIONS\n".data ++ body)).map
          (fun b => ("Conclusions", pyStrip (captureUntilStop b))) := rfl
    rw [hred, h1, h2]
    cases matchWsNewline body <;> rfl
  · have h : lookupSec "Conclusion" (identifySections ("CONCLUSIONS\n".data ++ body)) =
        (matchPattern ("CONCLUSIONS\n".data ++ body)
          ("CONCLUSION".data, true, "Conclusion")).map Prod.snd :=
      lookupSec_identify ("CONCLUSIONS\n".data ++ body)
        ("CONCLUSION".data, true, "Conclusion") (by decide)
    rw [h]
    have hred : matchPattern ("CONCLUSIONS\n".data ++ body)
        ("CONCLUSION".data, true, "Conclusion") =
        (findHeadingTail "CONCLUSION".data body).map
          (fun b => ("Conclusion", pyStrip (captureUntilStop b))) := rfl
    rw [hred, Option.map_map]
    cases hf : findHeadingTail "CONCLUSION".data body <;> simp

/-- Claim C10: after every call the history holds at most 10 entries, and
once the bound is exceeded exactly the 10 most recent entries survive, in
order. -/
theorem history_bounded_last_ten (hist : List ConversationEntry) (q r : String) :
    (add_to_history hist q r).length ≤ 10 ∧
      (10 ≤ hist.length →
        add_to_history hist q r =
          ((hist ++ [({ query := q, response := r } : ConversationEntry)]).reverse.take 10).reverse) := by
  constructor
  · simp only [add_to_history]
    split
    · next h => simp only [List.length_drop]; omega
    · next h =>
      simp only [List.length_append, List.length_cons, List.length_nil] at h ⊢
      omega
  · intro h10
    simp only [add_to_history]
    rw [List.take_reverse, List.reverse_reverse]
    split
    · rfl
    · next h =>
      exfalso
      simp only [List.length_append, List.length_cons, List.length_nil] at h
      omega

/-- Witness for C10 at a history already holding 10 entries. -/
theorem history_bounded_spot :
    add_to_history (List.replicate 10 ⟨"a", "b"⟩) "q" "r" =
      ((List.replicate 10 (⟨"a", "b"⟩ : ConversationEntry) ++
          [({ query := "q", response := "r" } : ConversationEntry)]).reverse.take 10).reverse :=
  (history_bounded_last_ten (List.replicate 10 ⟨"a", "b"⟩) "q" "r").2 (by decide)

end DocProc
